import Mathlib

/-!
Verification of the receipt-bot core (burst aggregation, extraction pipeline,
CSV repair, conversational correction, persistence expansion) against its
natural-language specification.  Python strings are embedded as `List Char`,
dictionaries as structures with `Option`-valued fields, numeric strings are
parsed into exact rationals, and the in-memory stores are passed explicitly.
-/

set_option maxRecDepth 4096

namespace Receipty

/-- Python strings are modelled as lists of characters. -/
abbrev Str := List Char

/-- Whitespace characters recognized by Python's `str.strip()` (ASCII range). -/
def isPyWhitespace (c : Char) : Bool :=
  c = ' ' || c = '\t' || c = '\n' || c = '\r' || c = '\x0b' || c = '\x0c'

/-- Python `str.strip()`: drop whitespace from both ends. -/
def pyStrip (s : Str) : Str :=
  ((s.dropWhile isPyWhitespace).reverse.dropWhile isPyWhitespace).reverse

/-- Python `str.lower()` (ASCII letters). -/
def pyLower (s : Str) : Str := s.map Char.toLower

/-- Python `str.upper()` (ASCII letters). -/
def pyUpper (s : Str) : Str := s.map Char.toUpper

/-- Python `s.replace(old, new)` for single characters. -/
def pyReplaceChar (old new : Char) (s : Str) : Str :=
  s.map fun c => if c = old then new else c

/-- Python `s.count(c)` for a single character. -/
def pyCountChar (c : Char) (s : Str) : Nat := s.count c

/-- Python `sub in s` (substring containment). -/
def pyContains (sub : Str) : Str → Bool
  | [] => sub.isEmpty
  | c :: rest => sub.isPrefixOf (c :: rest) || pyContains sub rest

/-- Python `s.split(sep)` for a single-character separator. -/
def pySplitChar (sep : Char) : Str → List Str
  | [] => [[]]
  | c :: rest =>
    if c = sep then [] :: pySplitChar sep rest
    else
      match pySplitChar sep rest with
      | [] => [[c]]
      | h :: t => (c :: h) :: t

/-- Fuelled worker for `pySplitSub`; the fuel is an upper bound on the input
length, so the fuelled recursion computes the same splits as Python's
left-to-right non-overlapping `str.split(sep)` for non-empty `sep`. -/
def pySplitSubFuel (sep : Str) : Nat → Str → List Str
  | 0, s => [s]
  | _ + 1, [] => [[]]
  | fuel + 1, c :: rest =>
    if sep ≠ [] ∧ sep.isPrefixOf (c :: rest) then
      [] :: pySplitSubFuel sep fuel ((c :: rest).drop sep.length)
    else
      match pySplitSubFuel sep fuel rest with
      | [] => [[c]]
      | h :: t => (c :: h) :: t

/-- Python `s.split(sep)` for a non-empty separator string. -/
def pySplitSub (sep s : Str) : List Str := pySplitSubFuel sep s.length s

/-- Numeric value of a digit string (most significant first). -/
def digitsVal (s : Str) : Nat :=
  s.foldl (fun a c => a * 10 + (c.toNat - 48)) 0

/-- An exact decimal number `num / 10 ^ scale`.  This represents the values of
Python `float` / `Decimal` on the decimal literals the program handles, kept
exact so that the kernel can evaluate comparisons (rational normalization via
`Nat.gcd` does not reduce in the kernel). -/
structure Dec where
  num : Int
  scale : Nat
deriving DecidableEq

/-- The mathematical value of a `Dec`. -/
def Dec.toRat (d : Dec) : Rat := (d.num : Rat) / (10 : Rat) ^ d.scale

/-- Python `int(f)`: truncation toward zero. -/
def Dec.trunc (d : Dec) : Int := d.num.tdiv (10 ^ d.scale)

/-- Greedy parse of a digit group that may contain single underscores between
digits (PEP 515, accepted by Python `float` and `Decimal`); the consumed
digits are returned without the underscores, together with the unconsumed
rest.  A doubled or trailing underscore stops the group with the offending
suffix unconsumed, so the callers (which demand the literal be fully
consumed) reject the whole string, as Python does. -/
def digitsUAux : Str → Str × Str
  | [] => ([], [])
  | c :: rest =>
    if c.isDigit then
      let r := digitsUAux rest
      (c :: r.1, r.2)
    else if c = '_' then
      match rest with
      | d :: r2 =>
        if d.isDigit then
          let r := digitsUAux r2
          (d :: r.1, r.2)
        else ([], c :: rest)
      | [] => ([], [c])
    else ([], c :: rest)

/-- A digit group must begin with a digit: Python rejects a leading
underscore. -/
def pyDigits (s : Str) : Str × Str :=
  match s with
  | c :: _ => if c.isDigit then digitsUAux s else ([], s)
  | [] => ([], [])

/-- The value of a successful Python `float(s)` / `Decimal(s)` parse: an
exact finite decimal, a signed infinity, or NaN. -/
inductive PyFloatVal where
  | finite (d : Dec)
  | inf (neg : Bool)
  | nan
deriving DecidableEq

/-- Embedding of Python `float(s)` / `Decimal(s)`: optional sign, then either
one of the special names `inf` / `infinity` / `nan` (case-insensitive), or a
decimal literal — integer part, optional fractional part, optional exponent,
single underscores allowed between digits.  Finite values are kept exact:
`Decimal` is exact arithmetic, and at the `float` call sites the binary
rounding of the literal (which maps only literals beyond roughly `1e±308` to
an infinity or zero) is below this model's resolution.  Decimal-only syntax
extras (`sNaN` and NaN diagnostic payloads such as `NaN123`) are outside the
modelled grammar.  Non-numeric strings yield `none` (`ValueError` /
`InvalidOperation`). -/
def pyFloat (s : Str) : Option PyFloatVal :=
  let s := pyStrip s
  let sign : Bool × Str :=
    match s with
    | '-' :: r => (true, r)
    | '+' :: r => (false, r)
    | r => (false, r)
  let neg := sign.1
  let s₁ := sign.2
  let low := pyLower s₁
  if low = "inf".toList ∨ low = "infinity".toList then some (.inf neg)
  else if low = "nan".toList then some .nan
  else
    let ipr := pyDigits s₁
    let ip := ipr.1
    let r₁ := ipr.2
    let fpr : Str × Str :=
      match r₁ with
      | '.' :: r => pyDigits r
      | r => ([], r)
    let fp := fpr.1
    let r₂ := fpr.2
    if ip = [] ∧ fp = [] then none
    else
      let m : Int := (digitsVal ip : Int) * 10 ^ fp.length + (digitsVal fp : Int)
      let m := if neg then -m else m
      match r₂ with
      | [] => some (.finite ⟨m, fp.length⟩)
      | e :: r₃ =>
        if e = 'e' ∨ e = 'E' then
          let esign : Bool × Str :=
            match r₃ with
            | '-' :: r => (true, r)
            | '+' :: r => (false, r)
            | r => (false, r)
          let edr := pyDigits esign.2
          if edr.1 = [] ∨ edr.2 ≠ [] then none
          else
            if esign.1 then some (.finite ⟨m, fp.length + digitsVal edr.1⟩)
            else some (.finite ⟨m * 10 ^ digitsVal edr.1, fp.length⟩)
        else none

/-- Python `v != 0` negated, as the suspicious-product detector uses it: only
a finite value with zero numerator equals 0; NaN and the infinities compare
non-zero (Python's `Decimal('NaN') != 0` is true). -/
def PyFloatVal.isZero : PyFloatVal → Bool
  | .finite d => d.num == 0
  | _ => false

/-- Python `v <= 0`: every comparison against NaN is false, `+inf <= 0` is
false, `-inf <= 0` is true; on a finite value it is `num ≤ 0`. -/
def PyFloatVal.le_zero : PyFloatVal → Bool
  | .finite d => decide (d.num ≤ 0)
  | .inf neg => neg
  | .nan => false

theorem Dec.ten_pow_pos (d : Dec) : (0 : Rat) < (10 : Rat) ^ d.scale :=
  pow_pos (by norm_num) _

theorem Dec.toRat_eq_zero_iff (d : Dec) : d.toRat = 0 ↔ d.num = 0 := by
  rw [Dec.toRat, div_eq_zero_iff]
  constructor
  · rintro (h | h)
    · exact_mod_cast h
    · exact absurd h (ne_of_gt d.ten_pow_pos)
  · intro h
    exact Or.inl (by exact_mod_cast h)

theorem Dec.toRat_lt_one_iff (d : Dec) : d.toRat < 1 ↔ d.num < 10 ^ d.scale := by
  rw [Dec.toRat, div_lt_iff₀ d.ten_pow_pos, one_mul]
  exact ⟨fun h => by exact_mod_cast h, fun h => by exact_mod_cast h⟩

/-- Fuelled worker for `splitLongMessage`: Python's
`for i in range(0, len(message), max_length): chunks.append(message[i:i+max_length])`.
The fuel is an upper bound on the input length; for a positive `maxLength`
every step consumes at least one character, so the fuel never runs out. -/
def chunksOfFuel (maxLength : Nat) : Nat → Str → List Str
  | 0, _ => []
  | _ + 1, [] => []
  | fuel + 1, c :: rest =>
    (c :: rest).take maxLength :: chunksOfFuel maxLength fuel ((c :: rest).drop maxLength)

/-- Embedding of `formatters.split_long_message`. -/
def splitLongMessage (message : Str) (maxLength : Nat) : List Str :=
  if message.length ≤ maxLength then [message]
  else chunksOfFuel maxLength message.length message

theorem chunksOfFuel_join (maxLength : Nat) (h : 0 < maxLength) :
    ∀ fuel (s : Str), s.length ≤ fuel →
      (chunksOfFuel maxLength fuel s).foldr (· ++ ·) [] = s := by
  intro fuel
  induction fuel with
  | zero =>
    intro s hs
    have : s = [] := List.eq_nil_of_length_eq_zero (Nat.le_zero.mp hs)
    simp [this, chunksOfFuel]
  | succ fuel ih =>
    intro s hs
    cases s with
    | nil => simp [chunksOfFuel]
    | cons c rest =>
      have hlen : ((c :: rest).drop maxLength).length ≤ fuel := by
        simp only [List.length_drop, List.length_cons]
        simp only [List.length_cons] at hs
        omega
      simp only [chunksOfFuel, List.foldr_cons, ih _ hlen]
      exact List.take_append_drop _ _

theorem chunksOfFuel_length_le (maxLength : Nat) :
    ∀ fuel (s : Str), ∀ chunk ∈ chunksOfFuel maxLength fuel s,
      chunk.length ≤ maxLength := by
  intro fuel
  induction fuel with
  | zero => intro s chunk hc; simp [chunksOfFuel] at hc
  | succ fuel ih =>
    intro s chunk hc
    cases s with
    | nil => simp [chunksOfFuel] at hc
    | cons c rest =>
      simp only [chunksOfFuel, List.mem_cons] at hc
      rcases hc with h | h
      · subst h
        simp
      · exact ih _ chunk h

/-- C10: message chunking loses no content: for every message and positive
chunk limit, `split_long_message` returns a non-empty list of chunks, each of
length at most the limit, whose concatenation is the original message. -/
theorem splitLongMessage_lossless (m : Str) (n : Nat) (hn : 0 < n) :
    splitLongMessage m n ≠ [] ∧
    (∀ chunk ∈ splitLongMessage m n, chunk.length ≤ n) ∧
    (splitLongMessage m n).foldr (· ++ ·) [] = m := by
  unfold splitLongMessage
  by_cases h : m.length ≤ n
  · simp [h]
  · rw [if_neg h]
    refine ⟨?_, chunksOfFuel_length_le n m.length m, chunksOfFuel_join n hn m.length m le_rfl⟩
    cases m with
    | nil => exact absurd (by simp) h
    | cons c rest => simp [chunksOfFuel]

/-! ## Product records

A parsed line item is a Python dict with string values; a missing key (or a
`None` value, which every consumer of these fields treats like a missing key
via `p.get(k) or default`) is `none`. -/

structure Product where
  original_product_name : Option Str := none
  translated_product_name : Option Str := none
  category : Option Str := none
  subcategory : Option Str := none
  price : Option Str := none
  quantity : Option Str := none
  currency : Option Str := none
  receipt_date : Option Str := none
deriving DecidableEq

/-- A product dict with no keys set. -/
def emptyProduct : Product := {}

/-! ## Suspicious-result detector (`bot._is_suspicious_products`) -/

/-- Price of one item as the detector reads it:
`Decimal(str(p.get('price', '0')).replace(',', '.'))`, defaulting to
`Decimal('0')` when the string does not parse (`InvalidOperation` /
`ValueError`).  The literals `NaN` and `Infinity` *do* parse. -/
def productPriceDec (p : Product) : PyFloatVal :=
  (pyFloat (pyReplaceChar ',' '.' (p.price.getD "0".toList))).getD (.finite ⟨0, 0⟩)

/-- One item's price, as the detector reads it, is exactly zero: the parse
produced a finite value of value zero.  A NaN or infinite price is *not*
zero — `Decimal('NaN') != 0` is true — and an unparseable price defaults to
zero. -/
def productPriceIsZero (p : Product) : Prop :=
  ∃ d, productPriceDec p = PyFloatVal.finite d ∧ d.toRat = 0

/-- `(p.get('category') or '').strip() or 'Unknown'`. -/
def normCategory (s : Option Str) : Str :=
  let t := pyStrip (s.getD [])
  if t = [] then "Unknown".toList else t

/-- One item's category test inside the detector loop: both the category and
the subcategory normalize to `unknown` (case-insensitively). -/
def itemUnknownCat (p : Product) : Bool :=
  pyLower (normCategory p.category) = "unknown".toList &&
  pyLower (normCategory p.subcategory) = "unknown".toList

/-- One item's name test inside the detector loop: both the original and the
translated name strip to the empty string. -/
def itemNamesEmpty (p : Product) : Bool :=
  pyStrip (p.original_product_name.getD []) = [] &&
  pyStrip (p.translated_product_name.getD []) = []

/-- One item's zero-price test inside the detector loop (`price_val != 0`
negated): false on NaN and infinite prices, and on a finite price it
compares the numerator with zero. -/
def itemZeroPrice (p : Product) : Bool := (productPriceDec p).isZero

/-- The detector's loop accumulating the three flags
`all_zero_price`, `all_unknown_category`, `all_empty_names`. -/
def suspiciousFlags (products : List Product) : Bool × Bool × Bool :=
  products.foldl
    (fun acc p =>
      (acc.1 && itemZeroPrice p,
       acc.2.1 && itemUnknownCat p,
       acc.2.2 && itemNamesEmpty p))
    (true, true, true)

/-- Embedding of `bot._is_suspicious_products`. -/
def isSuspiciousProducts (products : List Product) : Bool :=
  match products with
  | [] => true
  | _ :: _ =>
    let f := suspiciousFlags products
    (f.1 && f.2.1) || (f.1 && f.2.2)

theorem suspiciousFlags_eq (l : List Product) :
    suspiciousFlags l =
      (l.all itemZeroPrice, l.all itemUnknownCat, l.all itemNamesEmpty) := by
  suffices h : ∀ (init : Bool × Bool × Bool),
      l.foldl
        (fun acc p =>
          (acc.1 && itemZeroPrice p,
           acc.2.1 && itemUnknownCat p,
           acc.2.2 && itemNamesEmpty p))
        init =
      (init.1 && l.all itemZeroPrice,
       init.2.1 && l.all itemUnknownCat,
       init.2.2 && l.all itemNamesEmpty) by
    simpa [suspiciousFlags] using h (true, true, true)
  induction l with
  | nil => intro init; simp
  | cons p rest ih =>
    intro init
    simp only [List.foldl_cons, List.all_cons, ih]
    simp [Bool.and_assoc]

theorem itemZeroPrice_iff (p : Product) :
    itemZeroPrice p = true ↔ productPriceIsZero p := by
  unfold itemZeroPrice productPriceIsZero
  cases h : productPriceDec p with
  | finite d => simp [PyFloatVal.isZero, Dec.toRat_eq_zero_iff]
  | inf b => simp [PyFloatVal.isZero]
  | nan => simp [PyFloatVal.isZero]

/-- The spec's own wording of the suspicious predicate (C2 as stated): every
price is zero AND (every *category* is Unknown OR every name is empty) — the
subcategory is not consulted. -/
def specSuspiciousClaim (ps : List Product) : Prop :=
  (∀ p ∈ ps, productPriceIsZero p) ∧
  ((∀ p ∈ ps, pyLower (normCategory p.category) = "unknown".toList) ∨
   (∀ p ∈ ps, itemNamesEmpty p = true))

/-- A single item with zero price, category `Unknown` but subcategory `Meat`,
and non-empty names. -/
def c2Cex : Product :=
  { original_product_name := some "apple".toList
    translated_product_name := some "apple".toList
    category := some "Unknown".toList
    subcategory := some "Meat".toList
    price := some "0".toList }

/-- C2 is false as stated: a list whose only item has zero price and category
`Unknown` satisfies the spec's flagging condition, yet the detector does not
flag it, because the item's subcategory is not `Unknown`. -/
theorem isSuspicious_claim_counterexample :
    specSuspiciousClaim [c2Cex] ∧ isSuspiciousProducts [c2Cex] = false := by
  constructor
  · constructor
    · intro p hp
      rcases List.mem_singleton.mp hp with rfl
      exact (itemZeroPrice_iff _).mp (by decide)
    · left
      intro p hp
      rcases List.mem_singleton.mp hp with rfl
      decide
  · decide

theorem isSuspicious_iff (ps : List Product) :
    isSuspiciousProducts ps = true ↔
      (∀ p ∈ ps, productPriceIsZero p) ∧
      ((∀ p ∈ ps, itemUnknownCat p = true) ∨ (∀ p ∈ ps, itemNamesEmpty p = true)) := by
  cases ps with
  | nil => simp [isSuspiciousProducts]
  | cons p rest =>
    show ((suspiciousFlags (p :: rest)).1 && (suspiciousFlags (p :: rest)).2.1 ||
          (suspiciousFlags (p :: rest)).1 && (suspiciousFlags (p :: rest)).2.2) = true ↔ _
    rw [suspiciousFlags_eq]
    simp only [← Bool.and_or_distrib_left, Bool.and_eq_true, Bool.or_eq_true,
      List.all_eq_true, itemZeroPrice_iff]

/-- A single all-`Unknown`, empty-name item whose price is the literal
`NaN`: the price parses (`Decimal('NaN')`) but compares non-zero, so the
list is not flagged. -/
def nanCex : Product :=
  { category := some "Unknown".toList
    subcategory := some "Unknown".toList
    price := some "NaN".toList }

/-- C2 (amended): the detector flags a list iff every item's price parses to
exactly zero (a NaN or infinite price compares non-zero; an unparseable
price defaults to zero) AND (every item's category *and subcategory*
normalize to Unknown OR every item's original and translated names are
empty); in particular a list containing an item whose price is not zero in
this sense is never flagged — an all-Unknown, empty-name item priced `NaN`
is not flagged — and the empty list is flagged. -/
theorem isSuspicious_characterization (ps : List Product) :
    (isSuspiciousProducts ps = true ↔
      (∀ p ∈ ps, productPriceIsZero p) ∧
      ((∀ p ∈ ps, itemUnknownCat p = true) ∨ (∀ p ∈ ps, itemNamesEmpty p = true))) ∧
    ((∃ p ∈ ps, ¬productPriceIsZero p) → isSuspiciousProducts ps = false) ∧
    isSuspiciousProducts [nanCex] = false ∧
    isSuspiciousProducts [] = true := by
  refine ⟨isSuspicious_iff ps, ?_, by decide, by decide⟩
  rintro ⟨p, hp, hne⟩
  rcases h : isSuspiciousProducts ps with _ | _
  · rfl
  · have := ((isSuspicious_iff ps).mp h).1 p hp
    exact absurd this hne

/-- Witness for C2's amended theorem: a one-item list with non-zero price is
not flagged. -/
theorem isSuspicious_characterization_witness :
    isSuspiciousProducts [{ c2Cex with price := some "3.5".toList }] = false :=
  (isSuspicious_characterization [{ c2Cex with price := some "3.5".toList }]).2.1
    ⟨{ c2Cex with price := some "3.5".toList }, List.mem_singleton.mpr rfl,
      fun h => absurd ((itemZeroPrice_iff _).mpr h) (by decide)⟩

/-! ## Quantity-driven row expansion
(`gs_service.write_products_to_sheet`, `db_service.save_products_to_db`)

Both writers parse each product's quantity inside a
`try/except (ValueError, TypeError)`.  In the spreadsheet writer the whole
of `int(float(quantity_str))` is guarded, so on `'nan'` the `int(nan)`
`ValueError` is caught and the count falls back to 1, while on `'±inf'` the
`int(±inf)` `OverflowError` is *not* caught: it aborts
`write_products_to_sheet` before anything is appended.  In the database
writer only `float(quantity_str)` and the `< 1` clamp are guarded —
`range(int(quantity))` sits outside — so `int(nan)` / `int(inf)` raise out
of the loop into the function-level `except Exception`, which returns
`False` with nothing inserted; `'-inf'`, however, is clamped to the integer
1 by `-inf < 1` before `int` is reached.  `Except Unit` models an abort
that loses the whole write. -/

/-- The quantity parse both writers start from:
`float(product.get('quantity', '1'))`. -/
def productQuantityParse (p : Product) : Option PyFloatVal :=
  pyFloat (p.quantity.getD "1".toList)

/-- The spreadsheet writer's per-product row count on its non-aborting
paths: `int(float(quantity_str))` clamped below by 1, with parse failures,
a missing quantity and `'nan'` (whose `int` raises a caught `ValueError`)
defaulting to 1.  On `'±inf'` the writer aborts instead of producing a
count; see `gsQuantityE`. -/
def gsQuantity (p : Product) : Nat :=
  match productQuantityParse p with
  | some (.finite d) =>
    let q := d.trunc
    if q < 1 then 1 else q.toNat
  | _ => 1

/-- The 7-column spreadsheet row built for one product (no quantity column). -/
def gsRow (p : Product) : List Str :=
  [p.original_product_name.getD [],
   p.translated_product_name.getD [],
   p.category.getD [],
   p.subcategory.getD [],
   p.price.getD [],
   p.receipt_date.getD [],
   p.currency.getD []]

/-- `rows_to_add` on the non-aborting paths: each product's row repeated
`quantity` times, products in order.  This is what the sheet receives
whenever the write succeeds; `gsRowsToAddE` is the outcome with aborts. -/
def gsRowsToAdd (products : List Product) : List (List Str) :=
  products.foldl (fun acc p => acc ++ List.replicate (gsQuantity p) (gsRow p)) []

/-- The database writer's parsed-and-clamped quantity value on its
non-aborting paths: `float(quantity_str)`, then `if quantity < 1:
quantity = 1`, parse failures defaulting to 1; `-inf < 1` is true, so
`'-inf'` is clamped to the integer 1.  The `< 1` test on a finite value is
`num < 10 ^ scale` (`Dec.toRat_lt_one_iff`).  On `'nan'` and `'inf'` the
writer aborts instead; see `dbQuantityDecE`. -/
def dbQuantityDec (p : Product) : Dec :=
  match productQuantityParse p with
  | some (.finite d) => if d.num < 10 ^ d.scale then ⟨1, 0⟩ else d
  | _ => ⟨1, 0⟩

/-- The database writer's per-product row count on its non-aborting paths:
`range(int(quantity))`. -/
def dbCount (p : Product) : Nat := (dbQuantityDec p).trunc.toNat

/-- `receipt_date` as inserted: empty string and the literal `'None'`
become SQL NULL. -/
def dbReceiptDate (p : Product) : Option Str :=
  match p.receipt_date with
  | none => none
  | some d => if d = [] ∨ d = "None".toList then none else some d

/-- One row of the database `INSERT`, including the clamped quantity value. -/
structure DbRow where
  user_id : Nat
  original_product_name : Str
  translated_product_name : Str
  category : Str
  subcategory : Str
  price : Str
  receipt_date : Option Str
  currency : Str
  quantity : Dec
deriving DecidableEq

/-- The dict inserted for one product by `save_products_to_db`. -/
def dbRow (user_id : Nat) (p : Product) : DbRow :=
  { user_id := user_id
    original_product_name := p.original_product_name.getD []
    translated_product_name := p.translated_product_name.getD []
    category := p.category.getD "Unknown".toList
    subcategory := p.subcategory.getD "Unknown".toList
    price := p.price.getD "0".toList
    receipt_date := dbReceiptDate p
    currency := p.currency.getD []
    quantity := dbQuantityDec p }

/-- `rows_to_insert` on the non-aborting paths.  This is what the insert
receives whenever the write succeeds; `dbRowsToInsertE` is the outcome with
aborts. -/
def dbRowsToInsert (user_id : Nat) (products : List Product) : List DbRow :=
  products.foldl (fun acc p => acc ++ List.replicate (dbCount p) (dbRow user_id p)) []

theorem foldl_append_replicate {α β : Type} (f : α → Nat) (g : α → β) (l : List α) :
    l.foldl (fun acc p => acc ++ List.replicate (f p) (g p)) [] =
      (l.map fun p => List.replicate (f p) (g p)).flatten := by
  suffices h : ∀ init : List β,
      l.foldl (fun acc p => acc ++ List.replicate (f p) (g p)) init =
        init ++ (l.map fun p => List.replicate (f p) (g p)).flatten by
    simpa using h []
  induction l with
  | nil => intro init; simp
  | cons p rest ih => intro init; simp [ih, List.append_assoc]

def DEFAULT_CURRENCIES : List Str :=
  ["RSD".toList, "EUR".toList, "USD".toList, "RUB".toList]

def MAX_STORED_CURRENCIES : Nat := 6

/-- Embedding of `currency_storage.add_user_currency`. -/
def addUserCurrency (store : Nat → List Str) (user_id : Nat) (currency : Str) :
    Nat → List Str :=
  let c := pyStrip (pyUpper currency)
  if c.length ≠ 3 then store
  else
    let user_currencies := store user_id
    let removed :=
      if user_currencies.contains c then user_currencies.erase c else user_currencies
    fun uid =>
      if uid = user_id then (c :: removed).take MAX_STORED_CURRENCIES else store uid

/-- The result/seen loop shared by both passes of
`currency_storage.get_user_currencies`: append each entry's upper-case form
unless already seen. -/
def dedupUpper (seen : List Str) : List Str → List Str
  | [] => []
  | c :: rest =>
    let cu := pyUpper c
    if seen.contains cu then dedupUpper seen rest
    else cu :: dedupUpper (cu :: seen) rest

/-- Embedding of `currency_storage.get_user_currencies`: the user's stored
currencies deduplicated in order, then the defaults not already present. -/
def getUserCurrencies (store : Nat → List Str) (user_id : Nat) : List Str :=
  dedupUpper [] (store user_id ++ DEFAULT_CURRENCIES)

theorem dedupUpper_seen_ext {seen₁ seen₂ : List Str}
    (h : ∀ x, x ∈ seen₁ ↔ x ∈ seen₂) :
    ∀ l, dedupUpper seen₁ l = dedupUpper seen₂ l := by
  intro l
  induction l generalizing seen₁ seen₂ with
  | nil => rfl
  | cons c rest ih =>
    have hc : seen₁.contains (pyUpper c) = seen₂.contains (pyUpper c) := by
      rw [Bool.eq_iff_iff, List.elem_iff, List.elem_iff]
      exact h _
    simp only [dedupUpper, hc]
    by_cases hm : seen₂.contains (pyUpper c) = true
    · rw [if_pos hm, if_pos hm]
      exact ih h
    · rw [if_neg hm, if_neg hm]
      refine congrArg _ (ih fun x => ?_)
      simp [h x]

theorem dedupUpper_cons (seen c rest) :
    dedupUpper seen (c :: rest) =
      if seen.contains (pyUpper c) = true then dedupUpper seen rest
      else pyUpper c :: dedupUpper (pyUpper c :: seen) rest := rfl

theorem dedupUpper_nodup : ∀ (l : List Str) (seen : List Str),
    (dedupUpper seen l).Nodup ∧ ∀ x ∈ dedupUpper seen l, x ∉ seen := by
  intro l
  induction l with
  | nil => intro seen; simp [dedupUpper]
  | cons c rest ih =>
    intro seen
    rw [dedupUpper_cons]
    by_cases hm : seen.contains (pyUpper c) = true
    · rw [if_pos hm]
      exact ih seen
    · rw [if_neg hm]
      have hnotmem : pyUpper c ∉ seen := fun hx => hm (List.elem_iff.mpr hx)
      obtain ⟨ihn, ihs⟩ := ih (pyUpper c :: seen)
      refine ⟨?_, ?_⟩
      · rw [List.nodup_cons]
        exact ⟨fun hx => (ihs _ hx) (List.mem_cons_self _ _), ihn⟩
      · intro x hx
        rcases List.mem_cons.mp hx with rfl | hx
        · exact hnotmem
        · exact fun hxs => (ihs x hx) (List.mem_cons_of_mem _ hxs)

theorem dedupUpper_append : ∀ (l₁ l₂ seen : List Str),
    dedupUpper seen (l₁ ++ l₂) =
      dedupUpper seen l₁ ++ dedupUpper (dedupUpper seen l₁ ++ seen) l₂ := by
  intro l₁
  induction l₁ with
  | nil => intro l₂ seen; simp [dedupUpper]
  | cons c rest ih =>
    intro l₂ seen
    rw [List.cons_append, dedupUpper_cons, dedupUpper_cons]
    by_cases hm : seen.contains (pyUpper c) = true
    · rw [if_pos hm, if_pos hm]
      exact ih l₂ seen
    · rw [if_neg hm, if_neg hm, ih l₂ (pyUpper c :: seen), List.cons_append]
      refine congrArg _ (congrArg _ (dedupUpper_seen_ext (fun x => ?_) l₂))
      simp only [List.mem_append, List.mem_cons]
      tauto

theorem dedupUpper_seen_mem : ∀ (l seen : List Str) (x : Str),
    (x ∈ dedupUpper seen l ∨ x ∈ seen) ↔ (x ∈ l.map pyUpper ∨ x ∈ seen) := by
  intro l
  induction l with
  | nil => intro seen x; simp [dedupUpper]
  | cons c rest ih =>
    intro seen x
    rw [dedupUpper_cons]
    by_cases hm : seen.contains (pyUpper c) = true
    · have hcm : pyUpper c ∈ seen := List.elem_iff.mp hm
      rw [if_pos hm]
      have h1 := ih seen x
      simp only [List.map_cons, List.mem_cons]
      constructor
      · intro h
        rcases h1.mp h with h2 | h2
        · exact Or.inl (Or.inr h2)
        · exact Or.inr h2
      · rintro ((rfl | h3) | h2)
        · exact Or.inr hcm
        · exact h1.mpr (Or.inl h3)
        · exact Or.inr h2
    · rw [if_neg hm]
      have h1 := ih (pyUpper c :: seen) x
      simp only [List.mem_cons] at h1
      simp only [List.map_cons, List.mem_cons]
      constructor
      · rintro ((rfl | h2) | h)
        · exact Or.inl (Or.inl rfl)
        · rcases h1.mp (Or.inl h2) with h3 | h3
          · exact Or.inl (Or.inr h3)
          · rcases h3 with rfl | h4
            · exact Or.inl (Or.inl rfl)
            · exact Or.inr h4
        · exact Or.inr h
      · rintro ((rfl | h2) | h)
        · exact Or.inl (Or.inl rfl)
        · rcases h1.mpr (Or.inl h2) with h3 | h3
          · exact Or.inl (Or.inr h3)
          · rcases h3 with rfl | h4
            · exact Or.inl (Or.inl rfl)
            · exact Or.inr h4
        · exact Or.inr h

theorem dedupUpper_cons_seen_of_not_mem {c : Str} :
    ∀ (l seen : List Str), c ∉ l.map pyUpper →
      dedupUpper (c :: seen) l = dedupUpper seen l := by
  intro l
  induction l with
  | nil => intro seen _; rfl
  | cons d rest ih =>
    intro seen hc
    simp only [List.map_cons, List.mem_cons] at hc
    push_neg at hc
    obtain ⟨hne, hrest⟩ := hc
    have hcont : ((c :: seen).contains (pyUpper d)) = seen.contains (pyUpper d) := by
      simp only [List.contains_cons]
      have hbe : (pyUpper d == c) = false := by
        rw [beq_eq_false_iff_ne]
        exact fun h => hne h.symm
      rw [hbe, Bool.false_or]
    rw [dedupUpper_cons, dedupUpper_cons, hcont]
    by_cases hm : seen.contains (pyUpper d) = true
    · rw [if_pos hm, if_pos hm]
      exact ih seen hrest
    · rw [if_neg hm, if_neg hm]
      refine congrArg _ ?_
      have hswap : dedupUpper (pyUpper d :: c :: seen) rest
          = dedupUpper (c :: pyUpper d :: seen) rest := by
        refine dedupUpper_seen_ext (fun x => ?_) rest
        simp only [List.mem_cons]
        tauto
      rw [hswap, ih (pyUpper d :: seen) hrest]

theorem dedupUpper_of_upper_nodup :
    ∀ (l : List Str), (l.map pyUpper).Nodup → (∀ c ∈ l, pyUpper c = c) →
      ∀ seen, dedupUpper seen l = l.filter (fun c => !seen.contains c) := by
  intro l
  induction l with
  | nil => intro _ _ seen; rfl
  | cons c rest ih =>
    intro hnd hup seen
    simp only [List.map_cons, List.nodup_cons] at hnd
    have hc : pyUpper c = c := hup c (List.mem_cons_self _ _)
    have hrest := ih hnd.2 (fun d hd => hup d (List.mem_cons_of_mem _ hd))
    rw [dedupUpper_cons, hc, List.filter_cons]
    by_cases hm : seen.contains c = true
    · rw [if_pos hm, hrest seen]
      have hb : (!seen.contains c) = false := by rw [hm]; rfl
      rw [hb]
      simp
    · rw [if_neg hm]
      have h2 : c ∉ rest.map pyUpper := hc ▸ hnd.1
      rw [dedupUpper_cons_seen_of_not_mem rest seen h2, hrest seen]
      have hb : (!seen.contains c) = true := by
        rcases hx : seen.contains c with _ | _
        · rfl
        · exact absurd hx hm
      rw [hb]
      simp

theorem getUserCurrencies_decomposition (store : Nat → List Str) (user_id : Nat) :
    getUserCurrencies store user_id =
      dedupUpper [] (store user_id) ++
        DEFAULT_CURRENCIES.filter
          (fun x => !((store user_id).map pyUpper).contains x) := by
  rw [getUserCurrencies, dedupUpper_append]
  refine congrArg _ ?_
  rw [@dedupUpper_seen_ext (dedupUpper [] (store user_id) ++ [])
      (dedupUpper [] (store user_id)) (by simp) DEFAULT_CURRENCIES,
    dedupUpper_of_upper_nodup DEFAULT_CURRENCIES (by decide) (by decide)]
  refine List.filter_congr fun x _ => ?_
  have hmem : ∀ y, y ∈ dedupUpper [] (store user_id) ↔ y ∈ (store user_id).map pyUpper := by
    intro y
    have := dedupUpper_seen_mem (store user_id) [] y
    simpa using this
  have : (dedupUpper [] (store user_id)).contains x
      = ((store user_id).map pyUpper).contains x := by
    rw [Bool.eq_iff_iff, List.elem_iff, List.elem_iff]
    exact hmem x
  rw [this]
theorem perm_cons_erase_str {a : Str} {l : List Str} (h : a ∈ l) :
    l.Perm (a :: l.erase a) := by
  induction l with
  | nil => cases h
  | cons b bs ih =>
    rw [List.erase_cons]
    by_cases hb : b = a
    · subst hb
      rw [if_pos (by simp)]
    · rw [if_neg (by simp [hb])]
      rcases List.mem_cons.mp h with rfl | hbs
      · exact absurd rfl hb
      · exact ((ih hbs).cons b).trans (List.Perm.swap a b _)

theorem addUserCurrency_apply (store : Nat → List Str) (user_id : Nat) (currency : Str)
    (hc3 : (pyStrip (pyUpper currency)).length = 3) :
    addUserCurrency store user_id currency user_id
      = ((pyStrip (pyUpper currency)) ::
          (if (store user_id).contains (pyStrip (pyUpper currency)) = true then
            (store user_id).erase (pyStrip (pyUpper currency))
          else store user_id)).take MAX_STORED_CURRENCIES := by
  have h3 : ¬((pyStrip (pyUpper currency)).length ≠ 3) := by
    rw [hc3]
    exact fun h => h rfl
  unfold addUserCurrency
  rw [if_neg h3, if_pos rfl]

/-- C7: the per-user currency preference list is move-to-front: after adding
a (3-letter, case-normalized) currency, the stored list starts with it, has
no duplicates, and is capped at 6 entries; adding an already-present currency
permutes the stored list (same set); reading returns the stored currencies
deduplicated in most-recently-used order followed by the defaults not already
present, with no duplicates; and adding EUR, USD, EUR again yields
EUR, USD, RSD, RUB. -/
theorem currencyPreferences_characterization
    (store : Nat → List Str) (user_id : Nat) (currency : Str)
    (hc3 : (pyStrip (pyUpper currency)).length = 3)
    (hnd : (store user_id).Nodup)
    (hlen : (store user_id).length ≤ 6) :
    (addUserCurrency store user_id currency user_id).head?
        = some (pyStrip (pyUpper currency)) ∧
    (addUserCurrency store user_id currency user_id).Nodup ∧
    (addUserCurrency store user_id currency user_id).length ≤ 6 ∧
    (pyStrip (pyUpper currency) ∈ store user_id →
      (addUserCurrency store user_id currency user_id).Perm (store user_id)) ∧
    (getUserCurrencies store user_id).Nodup ∧
    (getUserCurrencies store user_id =
      dedupUpper [] (store user_id) ++
        DEFAULT_CURRENCIES.filter
          (fun x => !((store user_id).map pyUpper).contains x)) ∧
    getUserCurrencies
        (addUserCurrency
          (addUserCurrency (addUserCurrency (fun _ => []) 1 "EUR".toList) 1 "USD".toList)
          1 "EUR".toList) 1
      = ["EUR".toList, "USD".toList, "RSD".toList, "RUB".toList] := by
  rw [addUserCurrency_apply store user_id currency hc3]
  set c := pyStrip (pyUpper currency) with hc
  refine ⟨?_, ?_, ?_, ?_, ?_, getUserCurrencies_decomposition store user_id, by decide⟩
  · have h6 : MAX_STORED_CURRENCIES = 5 + 1 := rfl
    rw [h6, List.take_succ_cons]
    rfl
  · have hcm : c ∉ (if (store user_id).contains c = true then
        (store user_id).erase c else store user_id) := by
      by_cases h : (store user_id).contains c = true
      · rw [if_pos h]
        exact hnd.not_mem_erase
      · rw [if_neg h]
        exact fun hx => h (List.elem_iff.mpr hx)
    have hrn : (if (store user_id).contains c = true then
        (store user_id).erase c else store user_id).Nodup := by
      by_cases h : (store user_id).contains c = true
      · rw [if_pos h]
        exact hnd.erase c
      · rw [if_neg h]
        exact hnd
    exact ((List.nodup_cons).mpr ⟨hcm, hrn⟩).sublist (List.take_sublist _ _)
  · exact List.length_take_le _ _
  · intro hmem
    have hcont : (store user_id).contains c = true := List.elem_iff.mpr hmem
    rw [if_pos hcont]
    have h6 : MAX_STORED_CURRENCIES = 6 := rfl
    have hle : (c :: (store user_id).erase c).length ≤ MAX_STORED_CURRENCIES := by
      rw [h6, List.length_cons, List.length_erase_of_mem hmem]
      have h1 : 1 ≤ (store user_id).length := List.length_pos.mpr (by
        intro h
        rw [h] at hmem
        exact absurd hmem (List.not_mem_nil _))
      omega
    rw [List.take_of_length_le hle]
    exact (perm_cons_erase_str hmem).symm
  · exact (dedupUpper_nodup _ []).1

/-- Witness for C7 at the empty store and currency EUR. -/
theorem currencyPreferences_characterization_witness :
    (addUserCurrency (fun _ => []) 0 "EUR".toList 0).head?
      = some (pyStrip (pyUpper "EUR".toList)) :=
  (currencyPreferences_characterization (fun _ => []) 0 "EUR".toList
    (by decide) (by decide) (by decide)).1

/-! ## Media-group aggregation (`bot.process_media_group`,
`telegram_utils.media_groups`)

The shared `media_groups` dict is modelled as a map from media-group id to
its entry; the transport handles stored alongside the photos play no role in
the completion logic and are omitted.  `processMediaGroupCompletion` is the
code that runs when the aggregation wait finishes: look the batch up, copy
its photos, delete the entry, and yield the photos unless the batch is gone
or empty. -/

/-- Raw photo bytes. -/
abbrev Photo := List Nat

structure MediaGroupEntry where
  photos : List Photo
  last_update : Nat
deriving DecidableEq

abbrev MediaGroups := Str → Option MediaGroupEntry

/-- The completion step of `bot.process_media_group` (after the wait loop):
returns the updated shared map and the photos to process, if any. -/
def processMediaGroupCompletion (media_group_id : Str) (groups : MediaGroups) :
    MediaGroups × Option (List Photo) :=
  match groups media_group_id with
  | none => (groups, none)
  | some entry =>
    let photos_to_process := entry.photos
    let groups' : MediaGroups :=
      fun k => if k = media_group_id then none else groups k
    if photos_to_process.length = 0 then (groups', none)
    else (groups', some photos_to_process)

theorem processMediaGroupCompletion_none {gid : Str} {groups : MediaGroups}
    (hg : groups gid = none) :
    processMediaGroupCompletion gid groups = (groups, none) := by
  unfold processMediaGroupCompletion
  rw [hg]

theorem processMediaGroupCompletion_some {gid : Str} {groups : MediaGroups}
    {entry : MediaGroupEntry} (hg : groups gid = some entry) :
    processMediaGroupCompletion gid groups =
      if entry.photos.length = 0 then
        (fun k => if k = gid then none else groups k, none)
      else
        (fun k => if k = gid then none else groups k, some entry.photos) := by
  unfold processMediaGroupCompletion
  rw [hg]

/-- C5: a batch is yielded at most once: after any completion trigger the
batch key maps to nothing (or the map was untouched because the key was
absent), a second trigger for the same key yields nothing, a trigger for an
absent key is a no-op, a present-but-empty batch yields nothing, and anything
yielded is the non-empty photo list that was stored under the key. -/
theorem mediaGroup_at_most_once (groups : MediaGroups) (gid : Str) :
    ((processMediaGroupCompletion gid groups).1 gid = none ∨
      (processMediaGroupCompletion gid groups).1 = groups) ∧
    ((processMediaGroupCompletion gid
        ((processMediaGroupCompletion gid groups).1)).2 = none ∨ groups gid = none) ∧
    (groups gid = none →
      (processMediaGroupCompletion gid groups).2 = none ∧
      (processMediaGroupCompletion gid groups).1 = groups) ∧
    (∀ e, groups gid = some e → e.photos = [] →
      (processMediaGroupCompletion gid groups).2 = none) ∧
    (∀ e, groups gid = some e →
      (processMediaGroupCompletion gid groups).1 gid = none) ∧
    (∀ ps, (processMediaGroupCompletion gid groups).2 = some ps →
      ps ≠ [] ∧ ∃ e, groups gid = some e ∧ e.photos = ps) := by
  cases hg : groups gid with
  | none =>
    have heq := processMediaGroupCompletion_none hg
    refine ⟨Or.inr (by rw [heq]), Or.inr rfl, fun _ => ⟨by rw [heq], by rw [heq]⟩,
      ?_, ?_, ?_⟩
    · intro e he
      cases he
    · intro e he
      cases he
    · intro ps hps
      rw [heq] at hps
      cases hps
  | some entry =>
    have heq := processMediaGroupCompletion_some hg
    have herased : (processMediaGroupCompletion gid groups).1 gid = none := by
      by_cases h : entry.photos.length = 0
      · rw [heq, if_pos h]
        simp
      · rw [heq, if_neg h]
        simp
    have heq2 := processMediaGroupCompletion_none herased
    refine ⟨Or.inl herased, Or.inl (by rw [heq2]),
      fun h => Option.noConfusion h, ?_, fun e _ => herased, ?_⟩
    · intro e he hemp
      cases he
      rw [heq, if_pos (by simp [hemp])]
    · intro ps hps
      by_cases h : entry.photos.length = 0
      · rw [heq, if_pos h] at hps
        simp at hps
      · rw [heq, if_neg h] at hps
        have hpe : entry.photos = ps := by simpa using hps
        refine ⟨?_, entry, rfl, hpe⟩
        intro hx
        rw [hpe, hx] at h
        exact h rfl

/-- Witness for C5: a second completion trigger on a concrete one-batch map
yields nothing. -/
theorem mediaGroup_at_most_once_witness :
    (processMediaGroupCompletion "g1".toList
      ((processMediaGroupCompletion "g1".toList
        (fun k => if k = "g1".toList then some ⟨[[1, 2], [3]], 0⟩ else none)).1)).2
      = none := by
  rcases (mediaGroup_at_most_once
    (fun k => if k = "g1".toList then some ⟨[[1, 2], [3]], 0⟩ else none)
    "g1".toList).2.1 with h | h
  · exact h
  · exact absurd h (by decide)

/-! ## Conversation state (`context.user_data`)

The per-user mutable `context.user_data` dict is modelled as a record; a
popped or never-set key is `none` / `false`. -/

structure UserData where
  pending_receipt_photos : Option (List Photo) := none
  pending_receipt_csv : Option Str := none
  pending_receipt_products : Option (List Product) := none
  selected_currency : Option Str := none
  selected_language : Option Str := none
  editing_product_idx : Option Nat := none
  waiting_for_quantity : Bool := false
  waiting_for_price : Bool := false
  waiting_for_custom_currency : Bool := false
  waiting_for_custom_language : Bool := false
deriving DecidableEq

/-! ## Custom currency input (`bot.handle_custom_currency`) -/

/-- Python `str.isalpha()` (ASCII letters; false on the empty string). -/
def pyIsAlpha (s : Str) : Bool := !s.isEmpty && s.all Char.isAlpha

inductive CurrencyStep where
  | conversationEnd
  | waitingForCurrency
deriving DecidableEq

/-- Embedding of `bot.handle_custom_currency`: validate the stripped,
upper-cased text as a 3-letter alphabetic code; on failure re-prompt and stay
in `WAITING_FOR_CURRENCY`; on success record the preference, store the
currency, tag every pending product with it, and end the conversation. -/
def handle_custom_currency (d : UserData) (store : Nat → List Str) (user_id : Nat)
    (text : Str) : UserData × (Nat → List Str) × CurrencyStep :=
  if d.waiting_for_custom_currency = false then (d, store, .conversationEnd)
  else
    let currency_text := pyUpper (pyStrip text)
    if currency_text.length ≠ 3 ∨ pyIsAlpha currency_text = false then
      (d, store, .waitingForCurrency)
    else
      let store' := addUserCurrency store user_id currency_text
      let d' := { d with
        selected_currency := some currency_text,
        pending_receipt_products :=
          d.pending_receipt_products.map
            (fun ps => ps.map fun p => { p with currency := some currency_text }),
        waiting_for_custom_currency := false }
      (d', store', .conversationEnd)

/-- C6: in the currency-waiting state, free-text currency input is accepted
iff its stripped upper-cased form is exactly 3 alphabetic characters; every
rejected input leaves the data, the preference store and the waiting state
completely unchanged, returning to `WAITING_FOR_CURRENCY`. -/
theorem customCurrency_validation (d : UserData) (store : Nat → List Str)
    (user_id : Nat) (text : Str)
    (hw : d.waiting_for_custom_currency = true) :
    ((handle_custom_currency d store user_id text).2.2 = CurrencyStep.conversationEnd ↔
      ((pyUpper (pyStrip text)).length = 3 ∧ pyIsAlpha (pyUpper (pyStrip text)) = true)) ∧
    (¬((pyUpper (pyStrip text)).length = 3 ∧ pyIsAlpha (pyUpper (pyStrip text)) = true) →
      handle_custom_currency d store user_id text
        = (d, store, CurrencyStep.waitingForCurrency)) := by
  have hw' : ¬(d.waiting_for_custom_currency = false) := by
    rw [hw]
    simp
  by_cases hv : (pyUpper (pyStrip text)).length = 3 ∧ pyIsAlpha (pyUpper (pyStrip text)) = true
  · have hcond : ¬((pyUpper (pyStrip text)).length ≠ 3 ∨
        pyIsAlpha (pyUpper (pyStrip text)) = false) := by
      push_neg
      exact ⟨hv.1, by rw [hv.2]; simp⟩
    constructor
    · rw [handle_custom_currency, if_neg hw', if_neg hcond]
      simp [hv]
    · intro h
      exact absurd hv h
  · have hcond : (pyUpper (pyStrip text)).length ≠ 3 ∨
        pyIsAlpha (pyUpper (pyStrip text)) = false := by
      rcases Decidable.not_and_iff_or_not.mp hv with h | h
      · exact Or.inl h
      · right
        rcases hx : pyIsAlpha (pyUpper (pyStrip text)) with _ | _
        · rfl
        · exact absurd hx h
    have heq : handle_custom_currency d store user_id text
        = (d, store, CurrencyStep.waitingForCurrency) := by
      rw [handle_custom_currency, if_neg hw', if_pos hcond]
    refine ⟨?_, fun _ => heq⟩
    rw [heq]
    constructor
    · intro hc
      cases hc
    · intro hc
      exact absurd hc hv

/-- Witness for C6: the invalid input `12X` is rejected and changes nothing. -/
theorem customCurrency_validation_witness :
    handle_custom_currency { waiting_for_custom_currency := true } (fun _ => []) 0
        "12X".toList
      = ({ waiting_for_custom_currency := true }, (fun _ => []),
          CurrencyStep.waitingForCurrency) :=
  (customCurrency_validation { waiting_for_custom_currency := true } (fun _ => []) 0
    "12X".toList rfl).2 (by decide)

/-! ## Edit sub-flow field validation
(`bot.handle_quantity_input`, `bot.handle_price_input`) -/

inductive ConfirmReply where
  | dataNotFound
  | currencyNotSelected
  | processed (gs_success db_success : Bool)
deriving DecidableEq

structure ConfirmOutcome where
  data : UserData
  reply : ConfirmReply
  gsRowsWritten : List (List Str)
  dbRowsWritten : List DbRow
deriving DecidableEq

/-- Embedding of `bot.save_receipt_with_currency`: stamp currency and default
date onto the pending products, write both sinks, clear the pending receipt
data. -/
def save_receipt_with_currency (d : UserData) (user_id : Nat) (currency : Str)
    (today : Str) (gsConfigured gsOk dbOk : Bool) : ConfirmOutcome :=
  let csv_response := d.pending_receipt_csv.getD []
  let products := d.pending_receipt_products.getD []
  if csv_response = [] ∨ products = [] then ⟨d, .dataNotFound, [], []⟩
  else
    let products := products.map fun p => { p with currency := some currency }
    let products := products.map fun p =>
      if pyStrip (p.receipt_date.getD []) = [] then { p with receipt_date := some today }
      else p
    let gs_success := gsConfigured && gsOk
    let db_success := dbOk
    let d' := { d with
      pending_receipt_csv := none,
      pending_receipt_products := none }
    ⟨d', .processed gs_success db_success,
      if gs_success then gsRowsToAdd products else [],
      if db_success then dbRowsToInsert user_id products else []⟩

/-- Embedding of the `action_confirm` branch of `bot.handle_action_callback`. -/
def handle_action_confirm (d : UserData) (user_id : Nat) (today : Str)
    (gsConfigured gsOk dbOk : Bool) : ConfirmOutcome :=
  let products := d.pending_receipt_products.getD []
  let csv_response := d.pending_receipt_csv.getD []
  if products = [] ∨ csv_response = [] then ⟨d, .dataNotFound, [], []⟩
  else
    match d.selected_currency with
    | none => ⟨d, .currencyNotSelected, [], []⟩
    | some currency =>
      save_receipt_with_currency d user_id currency today gsConfigured gsOk dbOk

/-- C9: once a confirm has run with pending data present, the pending receipt
data is cleared, and re-delivering the same confirm finds nothing pending:
it writes no spreadsheet row and no database row, leaves the state unchanged,
and only reports that no data was found. -/
theorem confirm_idempotent (d : UserData) (user_id : Nat) (today : Str)
    (gsConfigured gsOk dbOk : Bool) (ps : List Product) (csv : Str) (cur : Str)
    (hps : d.pending_receipt_products = some ps) (hpne : ps ≠ [])
    (hcsv : d.pending_receipt_csv = some csv) (hcne : csv ≠ [])
    (hcur : d.selected_currency = some cur) :
    ((handle_action_confirm d user_id today gsConfigured gsOk
        dbOk).data.pending_receipt_csv = none ∧
      (handle_action_confirm d user_id today gsConfigured gsOk
        dbOk).data.pending_receipt_products = none) ∧
    (handle_action_confirm
        (handle_action_confirm d user_id today gsConfigured gsOk dbOk).data
        user_id today gsConfigured gsOk dbOk
      = ⟨(handle_action_confirm d user_id today gsConfigured gsOk dbOk).data,
          ConfirmReply.dataNotFound, [], []⟩) := by
  have h1 : handle_action_confirm d user_id today gsConfigured gsOk dbOk
      = save_receipt_with_currency d user_id cur today gsConfigured gsOk dbOk := by
    unfold handle_action_confirm
    rw [hps, hcsv, hcur]
    simp [hpne, hcne]
  have h2 : (save_receipt_with_currency d user_id cur today gsConfigured gsOk
      dbOk).data.pending_receipt_csv = none ∧
      (save_receipt_with_currency d user_id cur today gsConfigured gsOk
        dbOk).data.pending_receipt_products = none := by
    unfold save_receipt_with_currency
    rw [hps, hcsv]
    simp [hpne, hcne]
  refine ⟨h1 ▸ h2, ?_⟩
  rw [h1]
  obtain ⟨hc1, hc2⟩ := h2
  unfold handle_action_confirm
  rw [hc1, hc2]
  simp

/-- Concrete conversation state for the C9 witness: one pending product,
a non-empty pending CSV, currency already selected. -/
def confirmWitnessData : UserData :=
  { pending_receipt_products := some [emptyProduct],
    pending_receipt_csv := some "h".toList,
    selected_currency := some "EUR".toList }

/-- Witness for C9 at a concrete pending receipt. -/
theorem confirm_idempotent_witness :
    handle_action_confirm
        (handle_action_confirm confirmWitnessData 4 "2026-01-01".toList
          true true true).data
        4 "2026-01-01".toList true true true
      = ⟨(handle_action_confirm confirmWitnessData 4 "2026-01-01".toList
            true true true).data,
          ConfirmReply.dataNotFound, [], []⟩ :=
  (confirm_idempotent confirmWitnessData 4 "2026-01-01".toList true true true
    [emptyProduct] "h".toList "EUR".toList
    rfl (by decide) rfl (by decide) rfl).2

/-! ## Extraction pipeline call
(`openai_service.process_receipts`, `bot.process_photos_with_language`)

`process_receipts` iterates the three prompt strategies in order and returns
the first success, re-raising the last error after all three fail; the
outcome of one attempt (transport error / empty or refused response, versus
a CSV string) is an oracle parameter indexed by attempt number.  The
conversation engine's call site `process_receipts(photos, language=language)`
passes a `language=` keyword argument, but the function signature
`process_receipts(photos)` declares no such parameter, so in Python the call
itself raises `TypeError` before any strategy runs; `pyCallAccepts` embeds
that calling convention. -/

inductive PyErr where
  | typeError
  | valueError
deriving DecidableEq

/-- The `for attempt_num, (prompt_name, prompt_func) in enumerate(...)` loop
of `process_receipts`, also counting how many attempts were made. -/
def processReceiptsLoop (oracle : Nat → Except PyErr Str) (last_error : PyErr) :
    List Nat → Except PyErr Str × Nat
  | [] => (.error last_error, 0)
  | n :: rest =>
    match oracle n with
    | .ok s => (.ok s, 1)
    | .error e =>
      let r := processReceiptsLoop oracle e rest
      (r.1, r.2 + 1)

/-- Embedding of `openai_service.process_receipts` over the attempt oracle:
primary, retry-1, retry-2 in order. -/
def processReceipts (oracle : Nat → Except PyErr Str) (photos : List Photo) :
    Except PyErr Str × Nat :=
  if photos = [] then (.error .valueError, 0)
  else processReceiptsLoop oracle .valueError [1, 2, 3]

/-- The parameter list of `process_receipts` as declared in the source. -/
def processReceiptsParamNames : List String := ["photos"]

/-- Python's calling convention for keyword arguments: a call with a keyword
argument not among the callee's parameter names raises `TypeError`. -/
def pyCallAccepts (params : List String) (kwargs : List String) : Bool :=
  kwargs.all params.contains

/-- The conversation engine's extraction request
`await openai_service.process_receipts(photos, language=language)`. -/
def botExtractionRequest (oracle : Nat → Except PyErr Str) (photos : List Photo)
    (language : Str) : Except PyErr Str × Nat :=
  if pyCallAccepts processReceiptsParamNames ["language"] then
    processReceipts oracle photos
  else (.error .typeError, 0)

/-- Strategy ordering and first-success behavior of `process_receipts`
itself, when it is called with its declared parameters only. -/
theorem processReceipts_strategy_order (oracle : Nat → Except PyErr Str)
    (photos : List Photo) (hph : ¬(photos = [])) :
    (∀ s, oracle 1 = .ok s → processReceipts oracle photos = (.ok s, 1)) ∧
    (∀ e₁ s, oracle 1 = .error e₁ → oracle 2 = .ok s →
      processReceipts oracle photos = (.ok s, 2)) ∧
    (∀ e₁ e₂ s, oracle 1 = .error e₁ → oracle 2 = .error e₂ → oracle 3 = .ok s →
      processReceipts oracle photos = (.ok s, 3)) ∧
    (∀ e₁ e₂ e₃, oracle 1 = .error e₁ → oracle 2 = .error e₂ → oracle 3 = .error e₃ →
      processReceipts oracle photos = (.error e₃, 3)) := by
  refine ⟨?_, ?_, ?_, ?_⟩
  · intro s h1
    unfold processReceipts
    simp [hph, processReceiptsLoop, h1]
  · intro e₁ s h1 h2
    unfold processReceipts
    simp [hph, processReceiptsLoop, h1, h2]
  · intro e₁ e₂ s h1 h2 h3
    unfold processReceipts
    simp [hph, processReceiptsLoop, h1, h2, h3]
  · intro e₁ e₂ e₃ h1 h2 h3
    unfold processReceipts
    simp [hph, processReceiptsLoop, h1, h2, h3]

/-- C1 (code bug evidence): for every attempt oracle, photo list and
language, the conversation engine's extraction request raises `TypeError`
with zero prompt strategies attempted — the `language=` keyword is not a
parameter of `process_receipts`, so no strategy is ever tried and the
selected language never reaches the prompts. -/
theorem extraction_call_raises_typeError
    (oracle : Nat → Except PyErr Str) (photos : List Photo) (language : Str) :
    botExtractionRequest oracle photos language = (.error .typeError, 0) := rfl

/-! ## CSV repair (`csv_parser.extract_csv_strict`) -/

def headerKeywords : List Str :=
  ["original_product_name".toList, "translated_product_name".toList,
   "category".toList, "subcategory".toList, "price".toList]

def fenceCsvTag : Str := "```csv".toList

def fenceTag : Str := "```".toList

/-- The labelled-fence step: if the lowered text mentions a csv-labelled
fence, take what follows the first tag up to the next fence, stripped. -/
def stripCsvFence (text : Str) : Str :=
  if pyContains fenceCsvTag (pyLower text) = true then
    let parts := pySplitSub fenceCsvTag text
    if 1 < parts.length then
      pyStrip ((pySplitSub fenceTag ((parts.get? 1).getD [])).head?.getD [])
    else text
  else text

/-- The predicate picking the most CSV-shaped fence part. -/
def genericFencePartPred (part : Str) : Bool :=
  pyContains [','] part &&
    (pyContains "original_product_name".toList (pyLower part) ||
      (pyContains "product".toList (pyLower part) &&
        pyContains "price".toList (pyLower part)))

/-- The generic-fence step: split on the fence marker, prefer the part that
looks like CSV, else take the part after the first fence. -/
def stripGenericFence (text : Str) : Str :=
  if pyContains fenceTag text = true then
    let parts := pySplitSub fenceTag text
    if 1 < parts.length then
      match parts.find? genericFencePartPred with
      | some part => pyStrip part
      | none => pyStrip ((parts.get? 1).getD [])
    else text
  else text

/-- Both fence-stripping steps of `extract_csv_strict`, in order. -/
def stripFences (text : Str) : Str := stripGenericFence (stripCsvFence text)

/-- First index satisfying a predicate (the `for i, line in enumerate(...)`
search loops). -/
def firstIdxWith (p : Str → Bool) : List Str → Option Nat
  | [] => none
  | l :: ls => if p l then some 0 else (firstIdxWith p ls).map (· + 1)

/-- Header test of the first search loop: a keyword occurs in the lowered
line and the line has at least 4 commas. -/
def kwHeaderLine (line : Str) : Bool :=
  headerKeywords.any (fun kw => pyContains kw (pyLower line)) &&
    4 ≤ pyCountChar ',' line

/-- Header test of the fallback loop: at least 4 commas and a non-blank
line. -/
def fallbackHeaderLine (line : Str) : Bool :=
  4 ≤ pyCountChar ',' line && !(pyStrip line).isEmpty

/-- `header_idx`: first keyword-matching line, else first fallback line,
else 0. -/
def headerIndex (lines : List Str) : Nat :=
  match firstIdxWith kwHeaderLine lines with
  | some i => i
  | none =>
    match firstIdxWith fallbackHeaderLine lines with
    | some i => i
    | none => 0

/-- The pre-filter on lines from the header onward: non-blank with at least
3 commas. -/
def csvLineKeep (line : Str) : Bool :=
  !(pyStrip line).isEmpty && 3 ≤ pyCountChar ',' line

/-- The trailing-prose loop: keep lines while
`comma_count >= expected_commas - 1`, stopping at the first line below the
bound (`expected ≤ count + 1` is that comparison without integer
subtraction). -/
def takeValidLines (expected : Nat) : List Str → List Str
  | [] => []
  | l :: ls =>
    if expected ≤ pyCountChar ',' l + 1 then l :: takeValidLines expected ls
    else []

/-- The line-oriented half of `extract_csv_strict`, applied to the
fence-stripped text: locate the header, pre-filter, cut at the first invalid
line, and fall back to the stripped input when nothing CSV-like remains. -/
def csvLineFilter (t : Str) : Str :=
  let lines := pySplitChar '\n' t
  let header_idx := headerIndex lines
  let csv_lines := (lines.drop header_idx).filter csvLineKeep
  let valid_lines :=
    match csv_lines with
    | [] => csv_lines
    | h :: rest => h :: takeValidLines (pyCountChar ',' h) rest
  let result := pyStrip (List.intercalate ['\n'] valid_lines)
  if result ≠ [] ∧ pyContains [','] result = true then result
  else pyStrip t

/-- Embedding of `csv_parser.extract_csv_strict`. -/
def extract_csv_strict (text : Str) : Str :=
  if text.isEmpty then []
  else csvLineFilter (stripFences (pyStrip text))

theorem takeValidLines_spec (expected : Nat) :
    ∀ ls : List Str,
      takeValidLines expected ls
        = ls.takeWhile (fun l => decide (expected ≤ pyCountChar ',' l + 1)) ∧
      ∃ dropped, ls = takeValidLines expected ls ++ dropped ∧
        (∀ l ∈ takeValidLines expected ls, expected ≤ pyCountChar ',' l + 1) ∧
        (dropped = [] ∨ ∃ q qs, dropped = q :: qs ∧ pyCountChar ',' q + 1 < expected) := by
  intro ls
  induction ls with
  | nil => exact ⟨rfl, [], rfl, by simp [takeValidLines], Or.inl rfl⟩
  | cons l ls ih =>
    by_cases h : expected ≤ pyCountChar ',' l + 1
    · obtain ⟨ihw, dropped, ihd, ihm, ihq⟩ := ih
      refine ⟨?_, dropped, ?_, ?_, ihq⟩
      · simp only [takeValidLines, if_pos h, List.takeWhile_cons, decide_eq_true h, ihw]
        simp
      · simp only [takeValidLines, if_pos h, List.cons_append]
        exact congrArg _ ihd
      · intro x hx
        simp only [takeValidLines, if_pos h, List.mem_cons] at hx
        rcases hx with rfl | hx
        · exact h
        · exact ihm x hx
    · refine ⟨?_, l :: ls, ?_, ?_, Or.inr ⟨l, ls, rfl, Nat.not_le.mp h⟩⟩
      · simp only [takeValidLines, if_neg h, List.takeWhile_cons, decide_eq_false h]
        simp
      · simp only [takeValidLines, if_neg h, List.nil_append]
      · intro x hx
        simp only [takeValidLines, if_neg h] at hx
        exact absurd hx (List.not_mem_nil x)

theorem firstIdxWith_some (p : Str → Bool) :
    ∀ (l : List Str) (i : Nat), firstIdxWith p l = some i →
      ∃ x, l.get? i = some x ∧ p x = true ∧
        ∀ j < i, ∀ y, l.get? j = some y → p y = false := by
  intro l
  induction l with
  | nil => intro i h; cases h
  | cons a as ih =>
    intro i h
    by_cases hp : p a = true
    · rw [firstIdxWith, if_pos hp] at h
      cases h
      exact ⟨a, rfl, hp, fun j hj => absurd hj (Nat.not_lt_zero j)⟩
    · rw [firstIdxWith, if_neg hp] at h
      cases hfa : firstIdxWith p as with
      | none => rw [hfa] at h; cases h
      | some k =>
        rw [hfa] at h
        rw [Option.map_some'] at h
        cases h
        obtain ⟨x, hx, hpx, hbefore⟩ := ih k hfa
        refine ⟨x, hx, hpx, ?_⟩
        intro j hj y hy
        cases j with
        | zero =>
          simp only [List.get?_cons_zero] at hy
          cases hy
          exact Bool.eq_false_iff.mpr hp
        | succ j =>
          simp only [List.get?_cons_succ] at hy
          exact hbefore j (by omega) y hy

theorem firstIdxWith_none (p : Str → Bool) :
    ∀ l : List Str, firstIdxWith p l = none → ∀ x ∈ l, p x = false := by
  intro l
  induction l with
  | nil => intro _ x hx; exact absurd hx (List.not_mem_nil x)
  | cons a as ih =>
    intro h x hx
    by_cases hp : p a = true
    · rw [firstIdxWith, if_pos hp] at h
      cases h
    · rw [firstIdxWith, if_neg hp] at h
      rcases List.mem_cons.mp hx with rfl | hxs
      · rcases hq : p x with _ | _
        · rfl
        · exact absurd hq hp
      · cases hfa : firstIdxWith p as with
        | none => exact ih hfa x hxs
        | some k => rw [hfa] at h; cases h

theorem firstIdxWith_isSome (p : Str → Bool) :
    ∀ l : List Str, (∃ x ∈ l, p x = true) → ∃ i, firstIdxWith p l = some i := by
  intro l
  induction l with
  | nil => rintro ⟨x, hx, _⟩; exact absurd hx (List.not_mem_nil x)
  | cons a as ih =>
    rintro ⟨x, hx, hpx⟩
    by_cases hp : p a = true
    · exact ⟨0, by rw [firstIdxWith, if_pos hp]⟩
    · rcases List.mem_cons.mp hx with rfl | hxs
      · exact absurd hpx hp
      · obtain ⟨k, hk⟩ := ih ⟨x, hxs, hpx⟩
        exact ⟨k + 1, by rw [firstIdxWith, if_neg hp, hk]; rfl⟩

/-- C4 is false as stated: the repaired output does not keep exactly the
lines within comma-deviation 1 of the header.  First input: the data line has
8 commas against a 4-comma header (deviation 4) yet is kept — the filter is
one-sided.  Second input: a 5-comma line (deviation 0 from the 5-comma
header) is dropped because scanning stopped at an earlier 3-comma line. -/
theorem extractCsv_claim_counterexample :
    extract_csv_strict "a,b,c,d,e\n1,2,3,4,5,6,7,8,9".toList
      = "a,b,c,d,e\n1,2,3,4,5,6,7,8,9".toList ∧
    pyCountChar ',' "a,b,c,d,e".toList = 4 ∧
    pyCountChar ',' "1,2,3,4,5,6,7,8,9".toList = 8 ∧
    extract_csv_strict "a,b,c,d,e,f\nx,y,z,w\n1,2,3,4,5,6".toList
      = "a,b,c,d,e,f".toList ∧
    pyCountChar ',' "a,b,c,d,e,f".toList = 5 ∧
    pyCountChar ',' "x,y,z,w".toList = 3 ∧
    pyCountChar ',' "1,2,3,4,5,6".toList = 5 := by
  refine ⟨by decide, by decide, by decide, by decide, by decide, by decide, by decide⟩

/-- C4 (amended): for non-empty fence-free input, `extract_csv_strict` strips
the text, locates the header line (first line containing an expected column
keyword with ≥ 4 commas, else the first non-blank line with ≥ 4 commas, else
line 0), pre-drops blank lines and lines with fewer than 3 commas, and then
keeps the first surviving line followed by the longest prefix of the later
surviving lines whose comma count is at least the first line's count minus 1
(lines with more commas are kept; scanning stops at the first line below the
bound); if the joined result is empty or comma-free, the stripped input is
returned unchanged. -/
theorem extractCsv_characterization (text : Str) (hne : text ≠ [])
    (hfence : stripFences (pyStrip text) = pyStrip text) :
    extract_csv_strict text = csvLineFilter (pyStrip text) ∧
    (∀ (t : Str) (h : Str) (rest : List Str),
      ((pySplitChar '\n' t).drop (headerIndex (pySplitChar '\n' t))).filter csvLineKeep
          = h :: rest →
      csvLineFilter t =
        (if pyStrip (List.intercalate ['\n']
              (h :: takeValidLines (pyCountChar ',' h) rest)) ≠ [] ∧
            pyContains [',']
              (pyStrip (List.intercalate ['\n']
                (h :: takeValidLines (pyCountChar ',' h) rest))) = true
          then pyStrip (List.intercalate ['\n']
            (h :: takeValidLines (pyCountChar ',' h) rest))
          else pyStrip t)) ∧
    (∀ (expected : Nat) (ls : List Str),
      takeValidLines expected ls
        = ls.takeWhile (fun l => decide (expected ≤ pyCountChar ',' l + 1)) ∧
      ∃ dropped, ls = takeValidLines expected ls ++ dropped ∧
        (∀ l ∈ takeValidLines expected ls, expected ≤ pyCountChar ',' l + 1) ∧
        (dropped = [] ∨ ∃ q qs, dropped = q :: qs ∧ pyCountChar ',' q + 1 < expected)) ∧
    (∀ lines : List Str,
      ((∃ l ∈ lines, kwHeaderLine l = true) →
        ∃ hl, lines.get? (headerIndex lines) = some hl ∧ kwHeaderLine hl = true ∧
          ∀ j < headerIndex lines, ∀ lj, lines.get? j = some lj →
            kwHeaderLine lj = false) ∧
      ((∀ l ∈ lines, kwHeaderLine l = false) →
        (∃ l ∈ lines, fallbackHeaderLine l = true) →
        ∃ hl, lines.get? (headerIndex lines) = some hl ∧ fallbackHeaderLine hl = true ∧
          ∀ j < headerIndex lines, ∀ lj, lines.get? j = some lj →
            fallbackHeaderLine lj = false) ∧
      ((∀ l ∈ lines, kwHeaderLine l = false) →
        (∀ l ∈ lines, fallbackHeaderLine l = false) →
        headerIndex lines = 0)) ∧
    (∀ t : Str,
      ((pySplitChar '\n' t).drop (headerIndex (pySplitChar '\n' t))).filter csvLineKeep
          = [] →
      csvLineFilter t = pyStrip t) := by
  have hkw_none : ∀ (p : Str → Bool) (lines : List Str),
      (∀ l ∈ lines, p l = false) → firstIdxWith p lines = none := by
    intro p lines hall
    cases hf : firstIdxWith p lines with
    | none => rfl
    | some i =>
      obtain ⟨x, hx, hpx, _⟩ := firstIdxWith_some p lines i hf
      have hxm : x ∈ lines := List.get?_mem hx
      rw [hall x hxm] at hpx
      cases hpx
  refine ⟨?_, ?_, takeValidLines_spec, ?_, ?_⟩
  · have hne' : ¬(text.isEmpty = true) := by
      cases text with
      | nil => exact absurd rfl hne
      | cons c rest => simp
    rw [extract_csv_strict, if_neg hne', hfence]
  · intro t h rest hkept
    rw [csvLineFilter]
    rw [hkept]
  · intro lines
    refine ⟨?_, ?_, ?_⟩
    · intro hex
      obtain ⟨i, hi⟩ := firstIdxWith_isSome kwHeaderLine lines hex
      have hidx : headerIndex lines = i := by rw [headerIndex, hi]
      obtain ⟨x, hx, hpx, hbefore⟩ := firstIdxWith_some kwHeaderLine lines i hi
      exact ⟨x, hidx ▸ hx, hpx, hidx ▸ hbefore⟩
    · intro hallkw hex
      have hnone := hkw_none kwHeaderLine lines hallkw
      obtain ⟨i, hi⟩ := firstIdxWith_isSome fallbackHeaderLine lines hex
      have hidx : headerIndex lines = i := by rw [headerIndex, hnone, hi]
      obtain ⟨x, hx, hpx, hbefore⟩ := firstIdxWith_some fallbackHeaderLine lines i hi
      exact ⟨x, hidx ▸ hx, hpx, hidx ▸ hbefore⟩
    · intro hallkw hallfb
      rw [headerIndex, hkw_none kwHeaderLine lines hallkw,
        hkw_none fallbackHeaderLine lines hallfb]
  · intro t hkept
    rw [csvLineFilter]
    rw [hkept]
    simp [pyStrip, pyContains]

/-- Witness for C4's amended theorem at a concrete fence-free text. -/
theorem extractCsv_characterization_witness :
    extract_csv_strict "see below\na,b,c,d,e\n1,2,3,4,5".toList
      = csvLineFilter (pyStrip "see below\na,b,c,d,e\n1,2,3,4,5".toList) :=
  (extractCsv_characterization "see below\na,b,c,d,e\n1,2,3,4,5".toList
    (by decide) (by decide)).1

/-- Witness for C10 at a concrete message and limit. -/
theorem splitLongMessage_lossless_witness :
    (0 : Nat) < 2 ∧
    (splitLongMessage "hello".toList 2 ≠ [] ∧
      (∀ chunk ∈ splitLongMessage "hello".toList 2, chunk.length ≤ 2) ∧
      (splitLongMessage "hello".toList 2).foldr (· ++ ·) [] = "hello".toList) :=
  ⟨by decide, splitLongMessage_lossless "hello".toList 2 (by decide)⟩

end Receipty
